import Mathlib

/-!
Verification of the RFC 6265 cookie-pair parsing/serialization core described
by the repository specification.  The repository source (`src/lib.rs`) holds
only the test functions (`_01_simple` … `_10_newline`) exercising the core
through the `Cookie` interface; the core itself (grammar classifier, parser,
serializer) is modelled here from the specification, faithfully following its
algorithm steps, and the claims are settled against that model together with
the expectations asserted by the repository tests.

Octet sequences are modelled as `List Nat` (each element an octet value
0–255); names and values are opaque octet sequences, never transcoded.
-/

/-- Octets of an ASCII string literal, used to write concrete test inputs. -/
def octets (s : String) : List Nat := s.data.map Char.toNat

/-- Modelled from the spec: `RawCookie`, the sole core entity — an opaque
name/value pair of octet sequences. -/
structure RawCookie where
  name : List Nat
  value : List Nat
deriving DecidableEq, Repr

/-- Modelled from the spec: the `ParseError` taxonomy of §7. -/
inductive ParseError where
  | MissingEquals : ParseError
  | EmptyName : ParseError
  | InvalidNameChar : Nat → ParseError
  | UnbalancedQuote : ParseError
  | InvalidValueChar : Nat → ParseError
deriving DecidableEq, Repr

/-- Modelled from the spec: the explicit parse-mode parameter. -/
inductive Mode where
  | Strict : Mode
  | Tolerant : Mode
deriving DecidableEq, Repr

/-- Modelled from the spec: serializer quoting is an explicit opt-in
parameter, never implicit. -/
inductive Quoting where
  | Unquoted : Quoting
  | Quoted : Quoting
deriving DecidableEq, Repr

/-- Modelled from the spec, Grammar Classifier: `is_ctl(b)` is true for
0x00–0x1F and 0x7F. -/
def is_ctl (b : Nat) : Bool := b ≤ 0x1F || b == 0x7F

/-- Modelled from the spec, Grammar Classifier: the token separators
`( ) < > @ , ; : \ " / [ ] ? = \x7b \x7d SP HT`. -/
def separators : List Nat :=
  [40, 41, 60, 62, 64, 44, 59, 58, 92, 34, 47, 91, 93, 63, 61, 123, 125, 32, 9]

/-- Modelled from the spec, Grammar Classifier: `is_separator`. -/
def is_separator (b : Nat) : Bool := separators.contains b

/-- Modelled from the spec, Grammar Classifier: `is_token_char(b)` is true iff
`b` is ASCII (≤ 0x7F), not a CTL, and not a separator. -/
def is_token_char (b : Nat) : Bool := b ≤ 0x7F && ! is_ctl b && ! is_separator b

/-- Modelled from the spec, Grammar Classifier: `is_cookie_octet(b)` is true
iff `b` is 0x21, 0x23–0x2B, 0x2D–0x3A, 0x3C–0x5B or 0x5D–0x7E. -/
def is_cookie_octet (b : Nat) : Bool :=
  b == 0x21 || (0x23 ≤ b && b ≤ 0x2B) || (0x2D ≤ b && b ≤ 0x3A) ||
    (0x3C ≤ b && b ≤ 0x5B) || (0x5D ≤ b && b ≤ 0x7E)

/-- Split a list at the first occurrence of `sep`: `some (left, right)` with
the separator removed, or `none` when `sep` does not occur. -/
def splitFirst (sep : Nat) : List Nat → Option (List Nat × List Nat)
  | [] => none
  | b :: rest =>
    if b = sep then some ([], rest)
    else (splitFirst sep rest).map (fun p => (b :: p.1, p.2))

/-- Offset of the first octet violating predicate `p`, or `none` when every
octet satisfies it. -/
def firstViolation (p : Nat → Bool) : List Nat → Option Nat
  | [] => none
  | b :: rest => if p b then (firstViolation p rest).map (· + 1) else some 0

/-- Modelled from the spec, Parser step 3 (Strict): when the value segment is
at least 2 octets long and begins and ends with `"` (0x22), strip exactly one
leading and one trailing quote; when it begins with `"` but does not end with
`"` (or vice versa), fail with `UnbalancedQuote`. -/
def stripQuotes (v : List Nat) : Except ParseError (List Nat) :=
  if 2 ≤ v.length ∧ v.head? = some 34 ∧ v.getLast? = some 34 then
    Except.ok ((v.drop 1).dropLast)
  else if (v.head? = some 34 ∧ ¬ v.getLast? = some 34) ∨
      (¬ v.head? = some 34 ∧ v.getLast? = some 34) then
    Except.error ParseError.UnbalancedQuote
  else
    Except.ok v

/-- Whitespace octets trimmed by the Tolerant parser: space (0x20) and
horizontal tab (0x09). -/
def isWs (b : Nat) : Bool := b == 32 || b == 9

/-- Trim leading and trailing space/tab octets from a segment. -/
def trimWs (l : List Nat) : List Nat :=
  ((l.dropWhile isWs).reverse.dropWhile isWs).reverse

/-- Modelled from the spec, Cookie Parser, Strict algorithm: find the first
`=` (else `MissingEquals`); the left segment is the name (`EmptyName` when
zero-length, every octet validated by `is_token_char`); the right segment is
the value, quote-stripped structurally, every remaining octet validated by
`is_cookie_octet`; the `RawCookie` is built from the validated sub-slices,
unmodified. -/
def parseStrict (input : List Nat) : Except ParseError RawCookie :=
  match splitFirst 61 input with
  | none => Except.error ParseError.MissingEquals
  | some (name, rawValue) =>
    if name = [] then Except.error ParseError.EmptyName
    else
      match firstViolation is_token_char name with
      | some off => Except.error (ParseError.InvalidNameChar off)
      | none =>
        match stripQuotes rawValue with
        | Except.error e => Except.error e
        | Except.ok value =>
          match firstViolation is_cookie_octet value with
          | some off => Except.error (ParseError.InvalidValueChar off)
          | none => Except.ok { name := name, value := value }

/-- Modelled from the spec, Cookie Parser, Tolerant algorithm (single
already-split segment): trim space/tab; when no `=` occurs the whole trimmed
segment is a value-only pair with an empty name; otherwise name and value are
the trimmed sides of the first `=`, with structural quote-stripping still
applied to the value and no octet-class validation performed. -/
def parseTolerant (input : List Nat) : Except ParseError RawCookie :=
  match splitFirst 61 (trimWs input) with
  | none => Except.ok { name := [], value := trimWs input }
  | some (left, right) =>
    match stripQuotes (trimWs right) with
    | Except.error e => Except.error e
    | Except.ok value => Except.ok { name := trimWs left, value := value }

/-- Modelled from the spec: `parse(input, mode)`, dispatching on the explicit
mode parameter. -/
def parse (input : List Nat) (mode : Mode) : Except ParseError RawCookie :=
  match mode with
  | Mode.Strict => parseStrict input
  | Mode.Tolerant => parseTolerant input

/-- Modelled from the spec, Cookie Serializer: emit `name`, then `=`, then
`value`, verbatim, with no escaping, no percent-encoding and no automatic
quoting; quoting only on explicit opt-in. -/
def serialize (c : RawCookie) (q : Quoting) : List Nat :=
  match q with
  | Quoting.Unquoted => c.name ++ 61 :: c.value
  | Quoting.Quoted => c.name ++ 61 :: 34 :: (c.value ++ [34])

instance {ε α : Type} [DecidableEq ε] [DecidableEq α] : DecidableEq (Except ε α) :=
  fun a b =>
    match a, b with
    | Except.error e, Except.error f =>
      if h : e = f then isTrue (by rw [h]) else isFalse (by intro hc; cases hc; exact h rfl)
    | Except.error _, Except.ok _ => isFalse (by intro hc; cases hc)
    | Except.ok _, Except.error _ => isFalse (by intro hc; cases hc)
    | Except.ok x, Except.ok y =>
      if h : x = y then isTrue (by rw [h]) else isFalse (by intro hc; cases hc; exact h rfl)

/-- `a` occurs as a contiguous sub-slice of `l`. -/
def SubSlice (a l : List Nat) : Prop := ∃ p s, l = p ++ a ++ s

theorem subSlice_refl (l : List Nat) : SubSlice l l := ⟨[], [], by simp⟩

theorem subSlice_trans {a b l : List Nat} (h1 : SubSlice a b) (h2 : SubSlice b l) :
    SubSlice a l := by
  obtain ⟨p1, s1, rfl⟩ := h1
  obtain ⟨p2, s2, rfl⟩ := h2
  exact ⟨p2 ++ p1, s1 ++ s2, by simp⟩

theorem mem_of_subSlice {a l : List Nat} {b : Nat} (h : SubSlice a l) (hb : b ∈ a) :
    b ∈ l := by
  obtain ⟨p, s, rfl⟩ := h
  simp [hb]

theorem dropWhile_subSlice (p : Nat → Bool) (l : List Nat) :
    SubSlice (l.dropWhile p) l :=
  ⟨l.takeWhile p, [], by simp⟩

theorem drop_subSlice (n : Nat) (l : List Nat) : SubSlice (l.drop n) l :=
  ⟨l.take n, [], by simp⟩

theorem dropLast_subSlice (l : List Nat) : SubSlice l.dropLast l := by
  by_cases h : l = []
  · subst h; exact ⟨[], [], rfl⟩
  · exact ⟨[], [l.getLast h], by rw [List.nil_append, List.dropLast_append_getLast h]⟩

theorem rev_trim (m : List Nat) :
    m = (List.dropWhile isWs m.reverse).reverse ++ (List.takeWhile isWs m.reverse).reverse := by
  conv_lhs => rw [← List.reverse_reverse m,
    ← List.takeWhile_append_dropWhile (p := isWs) (l := m.reverse)]
  rw [List.reverse_append]

theorem trimWs_subSlice (l : List Nat) : SubSlice (trimWs l) l := by
  have h1 : SubSlice (trimWs l) (l.dropWhile isWs) := by
    refine ⟨[], ((l.dropWhile isWs).reverse.takeWhile isWs).reverse, ?_⟩
    rw [List.nil_append]
    simp only [trimWs]
    exact rev_trim _
  exact subSlice_trans h1 (dropWhile_subSlice isWs l)

theorem stripQuotes_ok_subSlice {v w : List Nat} (h : stripQuotes v = Except.ok w) :
    SubSlice w v := by
  unfold stripQuotes at h
  split at h
  · injection h with h; subst h
    exact subSlice_trans (dropLast_subSlice _) (drop_subSlice 1 v)
  · split at h
    · simp at h
    · injection h with h; subst h
      exact subSlice_refl v

theorem stripQuotes_error_eq {v : List Nat} {e : ParseError}
    (h : stripQuotes v = Except.error e) : e = ParseError.UnbalancedQuote := by
  unfold stripQuotes at h
  split at h
  · simp at h
  · split at h
    · injection h with h; exact h.symm
    · simp at h

theorem splitFirst_eq_some {sep : Nat} :
    ∀ {l a b : List Nat}, splitFirst sep l = some (a, b) → l = a ++ sep :: b := by
  intro l
  induction l with
  | nil => intro a b h; simp [splitFirst] at h
  | cons x rest ih =>
    intro a b h
    simp only [splitFirst] at h
    by_cases hx : x = sep
    · rw [if_pos hx] at h
      rw [Option.some.injEq, Prod.mk.injEq] at h
      obtain ⟨rfl, rfl⟩ := h
      simp [hx]
    · rw [if_neg hx] at h
      rcases hm : splitFirst sep rest with _ | ⟨a', b'⟩ <;> rw [hm] at h
      · simp at h
      · simp only [Option.map_some', Option.some.injEq, Prod.mk.injEq] at h
        obtain ⟨rfl, rfl⟩ := h
        simp [ih hm]

theorem splitFirst_append {sep : Nat} {a : List Nat} (b : List Nat) (h : sep ∉ a) :
    splitFirst sep (a ++ sep :: b) = some (a, b) := by
  induction a with
  | nil => simp [splitFirst]
  | cons x rest ih =>
    have hx : ¬ x = sep := by
      intro e
      exact h (by simp [e])
    have hrest : sep ∉ rest := by
      intro hm
      exact h (List.mem_cons_of_mem _ hm)
    simp only [List.cons_append, splitFirst, List.append_eq, if_neg hx, ih hrest,
      Option.map_some']

theorem splitFirst_eq_none_iff {sep : Nat} {l : List Nat} :
    splitFirst sep l = none ↔ sep ∉ l := by
  induction l with
  | nil => simp [splitFirst]
  | cons x rest ih =>
    by_cases hx : x = sep
    · subst hx
      simp [splitFirst]
    · have hxs : ¬ sep = x := fun e => hx e.symm
      simp [splitFirst, hx, Option.map_eq_none', ih, hxs]

theorem firstViolation_eq_none_iff {p : Nat → Bool} {l : List Nat} :
    firstViolation p l = none ↔ ∀ b ∈ l, p b = true := by
  induction l with
  | nil => simp [firstViolation]
  | cons x rest ih =>
    by_cases hx : p x
    · simp [firstViolation, hx, Option.map_eq_none', ih]
    · simp [firstViolation, hx]

theorem parseStrict_ok_subSlice {input : List Nat} {c : RawCookie}
    (h : parseStrict input = Except.ok c) :
    SubSlice c.name input ∧ SubSlice c.value input := by
  unfold parseStrict at h
  rcases hs : splitFirst 61 input with _ | ⟨name, rawValue⟩ <;> rw [hs] at h <;>
    dsimp only at h
  · simp at h
  · have hin : input = name ++ 61 :: rawValue := splitFirst_eq_some hs
    by_cases hn : name = []
    · rw [if_pos hn] at h; simp at h
    · rw [if_neg hn] at h
      rcases hv1 : firstViolation is_token_char name with _ | off <;> rw [hv1] at h <;>
        dsimp only at h
      · rcases hq : stripQuotes rawValue with e | value <;> rw [hq] at h <;>
          dsimp only at h
        · simp at h
        · rcases hv2 : firstViolation is_cookie_octet value with _ | off <;>
            rw [hv2] at h <;> dsimp only at h
          · injection h with h
            subst h
            refine ⟨⟨[], 61 :: rawValue, by simp [hin]⟩, ?_⟩
            refine subSlice_trans (stripQuotes_ok_subSlice hq) ?_
            exact ⟨name ++ [61], [], by simp [hin]⟩
          · simp at h
      · simp at h

theorem parseTolerant_ok_subSlice {input : List Nat} {c : RawCookie}
    (h : parseTolerant input = Except.ok c) :
    SubSlice c.name input ∧ SubSlice c.value input := by
  unfold parseTolerant at h
  rcases hs : splitFirst 61 (trimWs input) with _ | ⟨left, right⟩ <;> rw [hs] at h <;>
    dsimp only at h
  · injection h with h
    subst h
    exact ⟨⟨[], input, by simp⟩, trimWs_subSlice input⟩
  · have hseg : trimWs input = left ++ 61 :: right := splitFirst_eq_some hs
    rcases hq : stripQuotes (trimWs right) with e | value <;> rw [hq] at h <;>
      dsimp only at h
    · simp at h
    · injection h with h
      subst h
      have hsegsub : SubSlice (trimWs input) input := trimWs_subSlice input
      constructor
      · refine subSlice_trans (subSlice_trans (trimWs_subSlice left) ?_) hsegsub
        exact ⟨[], 61 :: right, by simp [hseg]⟩
      · refine subSlice_trans (subSlice_trans (stripQuotes_ok_subSlice hq)
          (subSlice_trans (trimWs_subSlice right) ?_)) hsegsub
        exact ⟨left ++ [61], [], by simp [hseg]⟩

theorem parse_ok_subSlice {input : List Nat} {m : Mode} {c : RawCookie}
    (h : parse input m = Except.ok c) :
    SubSlice c.name input ∧ SubSlice c.value input := by
  cases m
  · exact parseStrict_ok_subSlice h
  · exact parseTolerant_ok_subSlice h


theorem mem_of_head_some {l : List Nat} {a : Nat} (h : l.head? = some a) : a ∈ l := by
  cases l with
  | nil => simp at h
  | cons x xs =>
    simp at h
    subst h
    exact List.mem_cons_self x xs

theorem mem_of_getLast_some {l : List Nat} {a : Nat} (h : l.getLast? = some a) :
    a ∈ l := by
  induction l with
  | nil => simp at h
  | cons x xs ih =>
    cases xs with
    | nil =>
      simp [List.getLast?] at h
      subst h
      exact List.mem_cons_self x []
    | cons y ys =>
      rw [List.getLast?_cons_cons] at h
      exact List.mem_cons_of_mem x (ih h)

theorem parseStrict_error_cases {input : List Nat} {e : ParseError}
    (h : parseStrict input = Except.error e) :
    (e = ParseError.MissingEquals ∧ splitFirst 61 input = none) ∨
    (e = ParseError.EmptyName ∧ ∃ v, splitFirst 61 input = some ([], v)) ∨
    (∃ off, e = ParseError.InvalidNameChar off) ∨
    e = ParseError.UnbalancedQuote ∨
    (∃ off, e = ParseError.InvalidValueChar off) := by
  unfold parseStrict at h
  rcases hs : splitFirst 61 input with _ | ⟨name, v⟩ <;> rw [hs] at h <;> dsimp only at h
  · left
    injection h with h
    exact ⟨h.symm, rfl⟩
  · by_cases hn : name = []
    · rw [if_pos hn] at h
      injection h with h
      subst hn
      exact Or.inr (Or.inl ⟨h.symm, v, rfl⟩)
    · rw [if_neg hn] at h
      rcases hv1 : firstViolation is_token_char name with _ | off <;> rw [hv1] at h <;>
        dsimp only at h
      · rcases hq : stripQuotes v with e' | value <;> rw [hq] at h <;> dsimp only at h
        · injection h with h
          subst h
          exact Or.inr (Or.inr (Or.inr (Or.inl (stripQuotes_error_eq hq))))
        · rcases hv2 : firstViolation is_cookie_octet value with _ | off <;>
            rw [hv2] at h <;> dsimp only at h
          · simp at h
          · injection h with h
            exact Or.inr (Or.inr (Or.inr (Or.inr ⟨off, h.symm⟩)))
      · injection h with h
        exact Or.inr (Or.inr (Or.inl ⟨off, h.symm⟩))

theorem parseTolerant_error_eq {input : List Nat} {e : ParseError}
    (h : parseTolerant input = Except.error e) : e = ParseError.UnbalancedQuote := by
  unfold parseTolerant at h
  rcases hs : splitFirst 61 (trimWs input) with _ | ⟨left, right⟩ <;> rw [hs] at h <;>
    dsimp only at h
  · simp at h
  · rcases hq : stripQuotes (trimWs right) with e' | value <;> rw [hq] at h <;>
      dsimp only at h
    · injection h with h
      subst h
      exact stripQuotes_error_eq hq
    · simp at h

/-- Claim C1: parsing never percent-decodes the value — any successfully
parsed value is a contiguous sub-slice of the input octets; in particular
`parse("key=value%23foobar", Strict)` succeeds with the value byte-identical
to the input (`%23` is not decoded to `#`), and `parse("ke%y=a%0Ab",
Tolerant)` keeps the literal `%0A` octets, never a decoded newline. -/
theorem c1_no_percent_decoding :
    (∀ (input : List Nat) (m : Mode) (c : RawCookie),
        parse input m = Except.ok c → SubSlice c.value input)
    ∧ parse (octets "key=value%23foobar") Mode.Strict
        = Except.ok { name := octets "key", value := octets "value%23foobar" }
    ∧ parse (octets "ke%y=a%0Ab") Mode.Tolerant
        = Except.ok { name := octets "ke%y", value := octets "a%0Ab" } :=
  ⟨fun _ _ _ h => (parse_ok_subSlice h).2, by decide, by decide⟩

/-- Witness for C1 at the concrete input of the claim. -/
theorem c1_no_percent_decoding_witness :
    SubSlice (octets "value%23foobar") (octets "key=value%23foobar") :=
  c1_no_percent_decoding.1 (octets "key=value%23foobar") Mode.Strict
    { name := octets "key", value := octets "value%23foobar" }
    c1_no_percent_decoding.2.1

/-- Claim C2: round-trip symmetry — for every `RawCookie` whose name is a
non-empty sequence of token octets and whose value consists only of
cookie-octets, parsing the unquoted serialization in Strict mode returns the
same cookie, byte-identical. -/
theorem c2_round_trip (c : RawCookie) (hne : c.name ≠ [])
    (hname : ∀ b ∈ c.name, is_token_char b = true)
    (hvalue : ∀ b ∈ c.value, is_cookie_octet b = true) :
    parse (serialize c Quoting.Unquoted) Mode.Strict = Except.ok c := by
  have h61 : (61 : Nat) ∉ c.name := by
    intro hm
    have := hname 61 hm
    simp [is_token_char, is_separator, separators] at this
  have hsplit : splitFirst 61 (c.name ++ 61 :: c.value) = some (c.name, c.value) :=
    splitFirst_append c.value h61
  have hq : stripQuotes c.value = Except.ok c.value := by
    have hh : ¬ c.value.head? = some 34 := by
      intro hh
      have := hvalue 34 (mem_of_head_some hh)
      simp [is_cookie_octet] at this
    have hl : ¬ c.value.getLast? = some 34 := by
      intro hl
      have := hvalue 34 (mem_of_getLast_some hl)
      simp [is_cookie_octet] at this
    unfold stripQuotes
    rw [if_neg, if_neg]
    · rintro (⟨h1, -⟩ | ⟨-, h2⟩)
      · exact hh h1
      · exact hl h2
    · rintro ⟨-, h1, -⟩
      exact hh h1
  show parseStrict (c.name ++ 61 :: c.value) = Except.ok c
  unfold parseStrict
  rw [hsplit]
  dsimp only
  rw [if_neg hne, firstViolation_eq_none_iff.mpr hname]
  dsimp only
  rw [hq]
  dsimp only
  rw [firstViolation_eq_none_iff.mpr hvalue]

/-- Witness for C2 at the concrete cookie `key=value`. -/
theorem c2_round_trip_witness :
    parse (serialize { name := octets "key", value := octets "value" } Quoting.Unquoted)
        Mode.Strict
      = Except.ok { name := octets "key", value := octets "value" } :=
  c2_round_trip { name := octets "key", value := octets "value" }
    (by decide) (by decide) (by decide)

/-- Claim C3: invariant I1 — in both modes, the name and value of a parsed
`RawCookie` are exact contiguous sub-slices of the input octets (never
percent-decoded, case-folded or transcoded); in particular
`parse("key%2Ffoobar=value")` keeps the name `key%2Ffoobar` unchanged in
either mode. -/
theorem c3_invariant_i1 :
    (∀ (input : List Nat) (m : Mode) (c : RawCookie),
        parse input m = Except.ok c →
          SubSlice c.name input ∧ SubSlice c.value input)
    ∧ parse (octets "key%2Ffoobar=value") Mode.Strict
        = Except.ok { name := octets "key%2Ffoobar", value := octets "value" }
    ∧ parse (octets "key%2Ffoobar=value") Mode.Tolerant
        = Except.ok { name := octets "key%2Ffoobar", value := octets "value" } :=
  ⟨fun _ _ _ h => parse_ok_subSlice h, by decide, by decide⟩

/-- Witness for C3 at the concrete input of the claim. -/
theorem c3_invariant_i1_witness :
    SubSlice (octets "key%2Ffoobar") (octets "key%2Ffoobar=value") ∧
    SubSlice (octets "value") (octets "key%2Ffoobar=value") :=
  c3_invariant_i1.1 (octets "key%2Ffoobar=value") Mode.Strict
    { name := octets "key%2Ffoobar", value := octets "value" }
    c3_invariant_i1.2.1

/-- Claim C4: the serializer emits name, `=`, value verbatim — no escaping,
no percent-encoding, no automatic quoting — symmetrically for name and
value: `#` passes through unmodified on both sides. -/
theorem c4_serialize_verbatim :
    (∀ c : RawCookie, serialize c Quoting.Unquoted = c.name ++ 61 :: c.value)
    ∧ serialize { name := octets "key", value := octets "value#foobar" }
        Quoting.Unquoted = octets "key=value#foobar"
    ∧ serialize { name := octets "key#foobar", value := octets "value" }
        Quoting.Unquoted = octets "key#foobar=value" :=
  ⟨fun _ => rfl, by decide, by decide⟩

/-- Claim C5: Strict-mode error conditions — `MissingEquals` exactly when the
input contains no `=` octet; `EmptyName` exactly when the segment left of the
first `=` is zero-length; and `UnbalancedQuote` when (the name checks having
passed) the value segment begins with `"` but does not end with `"`, or vice
versa. -/
theorem c5_strict_error_conditions :
    (∀ input : List Nat,
        parseStrict input = Except.error ParseError.MissingEquals ↔
          (61 : Nat) ∉ input)
    ∧ (∀ input : List Nat,
        parseStrict input = Except.error ParseError.EmptyName ↔
          input.head? = some 61)
    ∧ (∀ input name v : List Nat,
        splitFirst 61 input = some (name, v) → ¬ name = [] →
        (∀ b ∈ name, is_token_char b = true) →
        ((v.head? = some 34 ∧ ¬ v.getLast? = some 34) ∨
          (¬ v.head? = some 34 ∧ v.getLast? = some 34)) →
        parseStrict input = Except.error ParseError.UnbalancedQuote) := by
  refine ⟨fun input => ⟨fun h => ?_, fun h => ?_⟩,
    fun input => ⟨fun h => ?_, fun h => ?_⟩,
    fun input name v hs hn hname hquote => ?_⟩
  · rcases parseStrict_error_cases h with ⟨-, hn⟩ | ⟨he, -⟩ | ⟨off, he⟩ | he | ⟨off, he⟩
    · exact splitFirst_eq_none_iff.mp hn
    · simp at he
    · simp at he
    · simp at he
    · simp at he
  · unfold parseStrict
    rw [splitFirst_eq_none_iff.mpr h]
  · rcases parseStrict_error_cases h with ⟨he, -⟩ | ⟨-, v, hs⟩ | ⟨off, he⟩ | he | ⟨off, he⟩
    · simp at he
    · rw [splitFirst_eq_some hs]
      rfl
    · simp at he
    · simp at he
    · simp at he
  · cases input with
    | nil => simp at h
    | cons x xs =>
      simp at h
      subst h
      rfl
  · have hfirst : ¬ (2 ≤ v.length ∧ v.head? = some 34 ∧ v.getLast? = some 34) := by
      rintro ⟨-, hh, hl⟩
      rcases hquote with ⟨h1, h2⟩ | ⟨h1, h2⟩
      · exact h2 hl
      · exact h1 hh
    have hq : stripQuotes v = Except.error ParseError.UnbalancedQuote := by
      unfold stripQuotes
      rw [if_neg hfirst, if_pos hquote]
    unfold parseStrict
    rw [hs]
    dsimp only
    rw [if_neg hn, firstViolation_eq_none_iff.mpr hname]
    dsimp only
    rw [hq]

/-- Witness for C5 at concrete inputs exercising all three error conditions. -/
theorem c5_strict_error_conditions_witness :
    parseStrict (octets "novalue") = Except.error ParseError.MissingEquals ∧
    parseStrict (octets "=value") = Except.error ParseError.EmptyName ∧
    parseStrict (octets "key=\"val") = Except.error ParseError.UnbalancedQuote :=
  ⟨(c5_strict_error_conditions.1 (octets "novalue")).mpr (by decide),
   (c5_strict_error_conditions.2.1 (octets "=value")).mpr (by decide),
   c5_strict_error_conditions.2.2 (octets "key=\"val") (octets "key")
     (octets "\"val") (by decide) (by decide) (by decide) (by decide)⟩

/-- Claim C6: quote stripping is structural only — a value segment of length
at least 2 that begins and ends with `"` has exactly one leading and one
trailing quote stripped; `parse("key=\"value\"", Strict)` yields value
`value`, and serializing that cookie unquoted yields `key=value` (quotes are
not reproduced). -/
theorem c6_quote_stripping_structural :
    (∀ v : List Nat, 2 ≤ v.length → v.head? = some 34 → v.getLast? = some 34 →
        stripQuotes v = Except.ok ((v.drop 1).dropLast))
    ∧ parse (octets "key=\"value\"") Mode.Strict
        = Except.ok { name := octets "key", value := octets "value" }
    ∧ serialize { name := octets "key", value := octets "value" } Quoting.Unquoted
        = octets "key=value" := by
  refine ⟨fun v h1 h2 h3 => ?_, by decide, by decide⟩
  unfold stripQuotes
  rw [if_pos ⟨h1, h2, h3⟩]

/-- Witness for C6 at the concrete quoted value of the claim. -/
theorem c6_quote_stripping_structural_witness :
    stripQuotes (octets "\"value\"")
      = Except.ok (((octets "\"value\"").drop 1).dropLast) :=
  c6_quote_stripping_structural.1 (octets "\"value\"")
    (by decide) (by decide) (by decide)

/-- Claim C7: Tolerant mode handles a missing `=` — for every non-empty input
with no `=` octet, parsing does not fail and returns an empty name with the
whole trimmed segment as value; in particular `parse("justavalue", Tolerant)`
yields `RawCookie{name:"", value:"justavalue"}`. -/
theorem c7_tolerant_missing_equals :
    (∀ input : List Nat, input ≠ [] → (61 : Nat) ∉ input →
        parse input Mode.Tolerant
          = Except.ok { name := [], value := trimWs input })
    ∧ parse (octets "justavalue") Mode.Tolerant
        = Except.ok { name := [], value := octets "justavalue" } := by
  refine ⟨fun input hne h61 => ?_, by decide⟩
  show parseTolerant input = _
  unfold parseTolerant
  have hseg : (61 : Nat) ∉ trimWs input := fun hm =>
    h61 (mem_of_subSlice (trimWs_subSlice input) hm)
  rw [splitFirst_eq_none_iff.mpr hseg]

/-- Witness for C7 at the concrete input of the claim. -/
theorem c7_tolerant_missing_equals_witness :
    parse (octets "justavalue") Mode.Tolerant
      = Except.ok { name := [], value := trimWs (octets "justavalue") } :=
  c7_tolerant_missing_equals.1 (octets "justavalue") (by decide) (by decide)

/-- Claim C8: Tolerant mode never returns `InvalidNameChar` or
`InvalidValueChar` for any input, and accepts octets outside valid UTF-8:
parsing `key=value` followed by octet 0xEE followed by `foobar` succeeds and
preserves the 0xEE octet unchanged in the value. -/
theorem c8_tolerant_never_char_errors :
    (∀ (input : List Nat) (off : Nat),
        parse input Mode.Tolerant ≠ Except.error (ParseError.InvalidNameChar off) ∧
        parse input Mode.Tolerant ≠ Except.error (ParseError.InvalidValueChar off))
    ∧ parse (octets "key=value" ++ 0xEE :: octets "foobar") Mode.Tolerant
        = Except.ok
            { name := octets "key",
              value := octets "value" ++ 0xEE :: octets "foobar" } := by
  refine ⟨fun input off => ⟨fun h => ?_, fun h => ?_⟩, by decide⟩
  · exact ParseError.noConfusion (parseTolerant_error_eq h)
  · exact ParseError.noConfusion (parseTolerant_error_eq h)

/-- Witness for C8 at a concrete input. -/
theorem c8_tolerant_never_char_errors_witness :
    parse (octets "a=b") Mode.Tolerant
        ≠ Except.error (ParseError.InvalidNameChar 0) ∧
    parse (octets "a=b") Mode.Tolerant
        ≠ Except.error (ParseError.InvalidValueChar 0) :=
  c8_tolerant_never_char_errors.1 (octets "a=b") 0

/-- Claim C9: Strict mode rejects control octets in the value — when the name
checks pass and the quote-stripped value segment contains a literal newline
octet (0x0A, not a cookie-octet), parsing fails with `InvalidValueChar`; in
particular `parse("key=a\nb", Strict)` fails with `InvalidValueChar 1`. -/
theorem c9_strict_rejects_newline :
    (∀ input name v w : List Nat,
        splitFirst 61 input = some (name, v) → ¬ name = [] →
        (∀ b ∈ name, is_token_char b = true) →
        stripQuotes v = Except.ok w → (10 : Nat) ∈ w →
        ∃ off, parseStrict input = Except.error (ParseError.InvalidValueChar off))
    ∧ parseStrict (octets "key=a" ++ 10 :: octets "b")
        = Except.error (ParseError.InvalidValueChar 1) := by
  refine ⟨fun input name v w hs hn hname hq hw => ?_, by decide⟩
  unfold parseStrict
  rw [hs]
  dsimp only
  rw [if_neg hn, firstViolation_eq_none_iff.mpr hname]
  dsimp only
  rw [hq]
  dsimp only
  rcases hv : firstViolation is_cookie_octet w with _ | off
  · exfalso
    have := firstViolation_eq_none_iff.mp hv 10 hw
    simp [is_cookie_octet] at this
  · exact ⟨off, rfl⟩

/-- Witness for C9 at the concrete input `key=a`, 0x0A, `b`. -/
theorem c9_strict_rejects_newline_witness :
    ∃ off, parseStrict (octets "key=a" ++ 10 :: octets "b")
      = Except.error (ParseError.InvalidValueChar off) :=
  c9_strict_rejects_newline.1 (octets "key=a" ++ 10 :: octets "b") (octets "key")
    (octets "a" ++ 10 :: octets "b") (octets "a" ++ 10 :: octets "b")
    (by decide) (by decide) (by decide) (by decide) (by decide)

/-- Claim C10: a lone `%` octet not followed by two hex digits is an ordinary
value octet — `parse("key=value%foobar")` succeeds in both modes, never
treated as an incomplete escape sequence. -/
theorem c10_single_percent_ok :
    parse (octets "key=value%foobar") Mode.Strict
        = Except.ok { name := octets "key", value := octets "value%foobar" }
    ∧ parse (octets "key=value%foobar") Mode.Tolerant
        = Except.ok { name := octets "key", value := octets "value%foobar" } :=
  ⟨by decide, by decide⟩
